import Mathlib

/-!
Verification of the voting-bot settlement scripts.

The definitions below are a shallow embedding of `calculate_winners.py`:
the Supabase store becomes an explicit `Store` structure holding the six
collections the script reads and writes, each query/update becomes a pure
function on `Store`, and Python exceptions become `Except String`.
Point amounts are embedded as exact rationals (`ℚ`): the script divides the
pot by the winner count with no rounding step.
-/

namespace VotingBot

/-- A row of the `USERS` table: roster membership window of one user. -/
structure User where
  user_email : String
  starting_match_id : Nat
  last_match_id : Option Nat
  deriving DecidableEq, Repr

/-- A row of the `MATCHES` table (column `Match_ID` and the per-poll stake). -/
structure MatchRow where
  match_id : Nat
  amount_per_poll : ℚ
  deriving DecidableEq, Repr

/-- A row of the `ADHOC_POLLS` table: marks (match, poll type) as ad-hoc. -/
structure AdhocPoll where
  match_id : Nat
  poll_type : String
  deriving DecidableEq, Repr

/-- A row of the `VOTES` table. -/
structure Vote where
  user_email : String
  match_id : Nat
  poll_type : String
  option_voted : String
  created_timestamp : Nat
  deriving DecidableEq, Repr

/-- A row of the `RESULTS` table: the correct option of a settled poll. -/
structure ResultRow where
  match_id : Nat
  poll_type : String
  result : String
  deriving DecidableEq, Repr

/-- A row of the `VOTING_RESULTS` table: the output ledger. -/
structure VotingResult where
  match_id : Nat
  poll_type : String
  user_email : String
  amount : ℚ
  is_valid : Bool
  deriving DecidableEq, Repr

/-- The whole store: the six collections `calculate_winners.py` touches. -/
structure Store where
  USERS : List User
  MATCHES : List MatchRow
  ADHOC_POLLS : List AdhocPoll
  VOTES : List Vote
  RESULTS : List ResultRow
  VOTING_RESULTS : List VotingResult
  deriving DecidableEq, Repr

/-- Decidable equality of settlement outcomes, used to evaluate `main` on
concrete test stores. -/
instance : DecidableEq (Except String Store) := fun x y =>
  match x, y with
  | Except.ok a, Except.ok b =>
    if h : a = b then isTrue (by rw [h])
    else isFalse (fun hc => h (Except.ok.inj hc))
  | Except.error e, Except.error f =>
    if h : e = f then isTrue (by rw [h])
    else isFalse (fun hc => h (Except.error.inj hc))
  | Except.ok a, Except.error f => isFalse (fun hc => Except.noConfusion hc)
  | Except.error e, Except.ok b => isFalse (fun hc => Except.noConfusion hc)

/-- `set_valid_to_false`: flip `is_valid` to false on every `VOTING_RESULTS`
row of the given (match, poll type). -/
def set_valid_to_false (s : Store) (match_id : Nat) (poll_type : String) : Store :=
  { s with VOTING_RESULTS := s.VOTING_RESULTS.map (fun r =>
      if r.match_id = match_id ∧ r.poll_type = poll_type then
        { r with is_valid := false }
      else r) }

/-- Modelled from the spec: the server-side procedure `get_processed_matches`
(not in the repository), "returning all (match, poll type) pairs with current
valid settlement rows". -/
def get_processed_matches (s : Store) : List (Nat × String) :=
  ((s.VOTING_RESULTS.filter (fun r => r.is_valid)).map
    (fun r => (r.match_id, r.poll_type))).dedup

/-- Modelled from the spec: the server-side procedure
`get_invalid_voting_results_polls` (not in the repository); per the script's
comment, a pair is "incorrect" when some (match_id, user_email, poll_type)
combination has multiple valid rows. -/
def get_invalid_voting_results_polls (s : Store) : List (Nat × String) :=
  let valid := s.VOTING_RESULTS.filter (fun r => r.is_valid)
  ((valid.filter (fun r =>
      1 < (valid.filter (fun r2 =>
        decide (r2.match_id = r.match_id ∧ r2.poll_type = r.poll_type ∧
          r2.user_email = r.user_email))).length)).map
    (fun r => (r.match_id, r.poll_type))).dedup

/-- One element of the list `get_unprocessed_matches` returns. -/
structure Candidate where
  match_id : Nat
  poll_type : String
  correct_option : String
  deriving DecidableEq, Repr

/-- `get_unprocessed_matches`: invalidates the rows of every corrupted pair,
then returns the store after those updates together with the `RESULTS` rows
that are unprocessed or corrupted. -/
def get_unprocessed_matches (s : Store) : Store × List Candidate :=
  let processed_set := get_processed_matches s
  let incorrect_results_set := get_invalid_voting_results_polls s
  let s1 := incorrect_results_set.foldl
    (fun st q => set_valid_to_false st q.1 q.2) s
  let unprocessed_results := s.RESULTS.filterMap (fun result =>
    if (result.match_id, result.poll_type) ∉ processed_set ∨
        (result.match_id, result.poll_type) ∈ incorrect_results_set then
      some ⟨result.match_id, result.poll_type, result.result⟩
    else none)
  (s1, unprocessed_results)

/-- `get_eligible_users`'s row filter: `starting_match_id <= match_id` and
(`last_match_id` is null or `last_match_id >= match_id`). -/
def rosterEligible (u : User) (match_id : Nat) : Bool :=
  decide (u.starting_match_id ≤ match_id) &&
    (match u.last_match_id with
     | none => true
     | some l => decide (match_id ≤ l))

/-- `get_eligible_users`: emails of the users whose roster window covers the
match. -/
def get_eligible_users (s : Store) (match_id : Nat) : List String :=
  (s.USERS.filter (fun u => rosterEligible u match_id)).map (fun u => u.user_email)

/-- `get_eligible_users_adhoc_polls`: the distinct emails of the users who
voted on the (match, poll type); raises when no votes exist at all. -/
def get_eligible_users_adhoc_polls (s : Store) (match_id : Nat)
    (poll_type : String) : Except String (List String) :=
  let response := s.VOTES.filter (fun v =>
    decide (v.match_id = match_id ∧ v.poll_type = poll_type))
  if response = [] then
    Except.error "No users found for adhoc poll"
  else
    Except.ok (response.map (fun v => v.user_email)).dedup

/-- `get_adhoc_poll_type`: the distinct poll types registered for the match in
`ADHOC_POLLS`, `[]` when there are none. -/
def get_adhoc_poll_type (s : Store) (match_id : Nat) : List String :=
  let response := s.ADHOC_POLLS.filter (fun a => decide (a.match_id = match_id))
  if response = [] then []
  else (response.map (fun a => a.poll_type)).dedup

/-- The `if poll_type in adhoc_poll_types` branch shared by
`get_latest_votes` and the eligibility claims. -/
def eligibleUsersFor (s : Store) (match_id : Nat) (poll_type : String) :
    Except String (List String) :=
  if poll_type ∈ get_adhoc_poll_type s match_id then
    get_eligible_users_adhoc_polls s match_id poll_type
  else
    Except.ok (get_eligible_users s match_id)

/-- Descending-timestamp order used by the `VOTES` query
(`order by created_timestamp desc`). -/
def voteOrder (a b : Vote) : Prop :=
  b.created_timestamp ≤ a.created_timestamp

instance : IsTotal Vote voteOrder :=
  ⟨fun a b => le_total b.created_timestamp a.created_timestamp⟩

instance : IsTrans Vote voteOrder :=
  ⟨fun _ _ _ h1 h2 => le_trans h2 h1⟩

instance : DecidableRel voteOrder :=
  fun a b => Nat.decLe b.created_timestamp a.created_timestamp

/-- One step of the vote-scan loop: the dict assignment
`latest_votes[user] = option` guarded by
`user in latest_votes and latest_votes[user] is None`. -/
def updateVote (acc : List (String × Option String)) (v : Vote) :
    List (String × Option String) :=
  acc.map (fun p =>
    if p.1 = v.user_email ∧ p.2 = none then (p.1, some v.option_voted) else p)

/-- `get_latest_votes`: one selection per eligible user, latest timestamp
wins, non-voters keep `none`. -/
def get_latest_votes (s : Store) (match_id : Nat) (poll_type : String) :
    Except String (List (String × Option String)) := do
  let eligible_users ← eligibleUsersFor s match_id poll_type
  let latest_votes := eligible_users.dedup.map
    (fun u => (u, (none : Option String)))
  let sorted_votes := List.insertionSort voteOrder
    (s.VOTES.filter (fun v =>
      decide (v.match_id = match_id ∧ v.poll_type = poll_type)))
  Except.ok (sorted_votes.foldl updateVote latest_votes)

/-- `get_amount_per_vote`: 50 for ad-hoc polls, otherwise the single
`MATCHES` row's `amount_per_poll`; raises unless exactly one row matches. -/
def get_amount_per_vote (s : Store) (match_id : Nat) (poll_type : String) :
    Except String ℚ :=
  if poll_type ∈ get_adhoc_poll_type s match_id then
    Except.ok 50
  else
    match s.MATCHES.filter (fun mt => decide (mt.match_id = match_id)) with
    | [mt] => Except.ok mt.amount_per_poll
    | _ => Except.error "No amount per vote found for match"

/-- The pure body of `calculate_points`, once `amount_per_vote` is known:
pot = entries * stake, winners split the pot, everyone pays the stake. -/
def calculate_points_core (correct_option : String)
    (votes : List (String × Option String)) (amount_per_vote : ℚ) :
    List (String × ℚ) × List (String × ℚ) :=
  let loss_points : ℚ := -amount_per_vote
  let pot_size : ℚ := (votes.length : ℚ) * amount_per_vote
  let num_winners : Nat :=
    (votes.filter (fun p => decide (p.2 = some correct_option))).length
  let points_per_winner : ℚ :=
    if 0 < num_winners then pot_size / (num_winners : ℚ) else 0
  let winners := (votes.filter (fun p => decide (p.2 = some correct_option))).map
    (fun p => (p.1, points_per_winner + loss_points))
  let losers := (votes.filter (fun p => !decide (p.2 = some correct_option))).map
    (fun p => (p.1, loss_points))
  (winners, losers)

/-- `calculate_points`: fetches the stake from the store, then computes the
winner and loser mappings. -/
def calculate_points (correct_option : String)
    (votes : List (String × Option String)) (match_id : Nat)
    (poll_type : String) (s : Store) :
    Except String (List (String × ℚ) × List (String × ℚ)) := do
  let amount_per_vote ← get_amount_per_vote s match_id poll_type
  Except.ok (calculate_points_core correct_option votes amount_per_vote)

/-- `store_voting_results`: append one valid row per winner and per loser;
when there are no entries at all, no insert is issued. -/
def store_voting_results (s : Store) (match_id : Nat) (poll_type : String)
    (winners losers : List (String × ℚ)) : Store :=
  let winner_entries := winners.map (fun wp =>
    VotingResult.mk match_id poll_type wp.1 wp.2 true)
  let loser_entries := losers.map (fun lp =>
    VotingResult.mk match_id poll_type lp.1 lp.2 true)
  let all_entries := winner_entries ++ loser_entries
  if all_entries = [] then s
  else { s with VOTING_RESULTS := s.VOTING_RESULTS ++ all_entries }

/-- The body of `main`'s per-candidate loop iteration. -/
def process_result (s : Store) (c : Candidate) : Except String Store := do
  let votes ← get_latest_votes s c.match_id c.poll_type
  let wl ← calculate_points c.correct_option votes c.match_id c.poll_type s
  Except.ok (store_voting_results s c.match_id c.poll_type wl.1 wl.2)

/-- `main`: one reconciliation run over the store. -/
def main (s : Store) : Except String Store := do
  let su := get_unprocessed_matches s
  su.2.foldlM process_result su.1

/-- Sum of the point values of a winners/losers mapping. -/
def valsSum (l : List (String × ℚ)) : ℚ :=
  (l.map Prod.snd).sum

/-- Python dict lookup `d[u]` on the association-list model: `none` when the
key is absent, `some v` when present with value `v`. -/
def dictGet (u : String) : List (String × Option String) → Option (Option String)
  | [] => none
  | q :: rest => if q.1 = u then some q.2 else dictGet u rest

/-- The first vote of user `u` in a vote list (what the descending scan in
`get_latest_votes` keeps). -/
def firstVoteOf (u : String) : List Vote → Option Vote
  | [] => none
  | v :: rest => if v.user_email = u then some v else firstVoteOf u rest

/-- The (match, poll type) pair of a candidate. -/
def cpair (c : Candidate) : Nat × String :=
  (c.match_id, c.poll_type)

/-- The (match, poll type) pair of a `RESULTS` row. -/
def rpair (r : ResultRow) : Nat × String :=
  (r.match_id, r.poll_type)

/-- All `VOTING_RESULTS` rows of one (match, poll type). -/
def rowsFor (s : Store) (m : Nat) (p : String) : List VotingResult :=
  s.VOTING_RESULTS.filter (fun r => decide (r.match_id = m ∧ r.poll_type = p))

/-- The currently-valid `VOTING_RESULTS` rows of one (match, poll type). -/
def validRowsFor (s : Store) (m : Nat) (p : String) : List VotingResult :=
  (rowsFor s m p).filter (fun r => r.is_valid)

/-- Two stores that agree on everything the settlement computation reads
(only `VOTING_RESULTS` may differ). -/
def sameBase (s t : Store) : Prop :=
  s.USERS = t.USERS ∧ s.MATCHES = t.MATCHES ∧ s.ADHOC_POLLS = t.ADHOC_POLLS ∧
    s.VOTES = t.VOTES ∧ s.RESULTS = t.RESULTS

/-- The batch of rows one candidate's settlement inserts (empty when either
fetch fails, but those runs abort anyway). -/
def entriesOf (s : Store) (c : Candidate) : List VotingResult :=
  match get_latest_votes s c.match_id c.poll_type,
        get_amount_per_vote s c.match_id c.poll_type with
  | Except.ok votes, Except.ok amt =>
      (calculate_points_core c.correct_option votes amt).1.map (fun wp =>
        VotingResult.mk c.match_id c.poll_type wp.1 wp.2 true) ++
      (calculate_points_core c.correct_option votes amt).2.map (fun lp =>
        VotingResult.mk c.match_id c.poll_type lp.1 lp.2 true)
  | _, _ => []

/-- Both fetches of a candidate's settlement succeed. -/
def settleOk (s : Store) (c : Candidate) : Prop :=
  (∃ votes, get_latest_votes s c.match_id c.poll_type = Except.ok votes) ∧
  (∃ amt, get_amount_per_vote s c.match_id c.poll_type = Except.ok amt)

/-! ## Helper lemmas about the settlement core -/

lemma valsSum_map_const {α : Type} (l : List α) (f : α → String) (c : ℚ) :
    valsSum (l.map (fun x => (f x, c))) = (l.length : ℚ) * c := by
  induction l with
  | nil => simp [valsSum]
  | cons x xs ih =>
    simp [valsSum, List.map_cons] at ih ⊢
    ring_nf
    ring_nf at ih
    rw [ih]
    ring

/-- Keys of the winners mapping are the keys of the correctly-voting entries. -/
lemma winners_keys (correct_option : String)
    (votes : List (String × Option String)) (a : ℚ) :
    (calculate_points_core correct_option votes a).1.map Prod.fst =
      (votes.filter (fun p => decide (p.2 = some correct_option))).map Prod.fst := by
  simp [calculate_points_core, List.map_map]

/-- Keys of the losers mapping are the keys of the remaining entries. -/
lemma losers_keys (correct_option : String)
    (votes : List (String × Option String)) (a : ℚ) :
    (calculate_points_core correct_option votes a).2.map Prod.fst =
      (votes.filter (fun p => !decide (p.2 = some correct_option))).map Prod.fst := by
  simp [calculate_points_core, List.map_map]

/-- Winner and loser keys together are a permutation of the vote-dict keys. -/
lemma calc_keys_perm (correct_option : String)
    (votes : List (String × Option String)) (a : ℚ) :
    (((calculate_points_core correct_option votes a).1.map Prod.fst) ++
      ((calculate_points_core correct_option votes a).2.map Prod.fst)).Perm
      (votes.map Prod.fst) := by
  rw [winners_keys, losers_keys, ← List.map_append]
  exact (List.filter_append_perm _ votes).map Prod.fst

/-! ## Claims about the settlement engine -/

/-- Claim C1: for every selection mapping, correct option and stake unit with
at least one correct voter, the net points across the winners and losers
mappings returned by `calculate_points` sum to exactly 0. -/
theorem conservation_of_points (correct_option : String)
    (votes : List (String × Option String)) (a : ℚ)
    (h : 0 < (votes.filter (fun p => decide (p.2 = some correct_option))).length) :
    valsSum (calculate_points_core correct_option votes a).1 +
      valsSum (calculate_points_core correct_option votes a).2 = 0 := by
  have hlen : (votes.filter (fun p => decide (p.2 = some correct_option))).length +
      (votes.filter (fun p => !decide (p.2 = some correct_option))).length =
      votes.length := by
    have := (List.filter_append_perm
      (fun p => decide (p.2 = some correct_option)) votes).length_eq
    simpa using this
  have hkQ : ((votes.filter
      (fun p => decide (p.2 = some correct_option))).length : ℚ) ≠ 0 := by
    exact_mod_cast Nat.pos_iff_ne_zero.mp h
  simp only [calculate_points_core, if_pos h]
  rw [valsSum_map_const _ Prod.fst, valsSum_map_const _ Prod.fst]
  rw [← hlen]
  push_cast
  field_simp
  ring

/-- Claim C1 witness: two voters, one correct, stake 25. -/
theorem conservation_of_points_witness :
    0 < (([("a", some "A"), ("b", some "B")] :
        List (String × Option String)).filter
        (fun p => decide (p.2 = some "A"))).length ∧
    valsSum (calculate_points_core "A" [("a", some "A"), ("b", some "B")] 25).1 +
      valsSum (calculate_points_core "A" [("a", some "A"), ("b", some "B")] 25).2 = 0 :=
  ⟨by decide, conservation_of_points "A" [("a", some "A"), ("b", some "B")] 25
    (by decide)⟩

/-- Claim C2: for every selection mapping with distinct keys, the winners and
losers mappings returned by `calculate_points` have disjoint key sets whose
union is exactly the key set of the input mapping. -/
theorem winners_losers_partition (correct_option : String)
    (votes : List (String × Option String)) (a : ℚ)
    (h : (votes.map Prod.fst).Nodup) :
    ((calculate_points_core correct_option votes a).1.map Prod.fst).Disjoint
      ((calculate_points_core correct_option votes a).2.map Prod.fst) ∧
    (((calculate_points_core correct_option votes a).1.map Prod.fst) ++
      ((calculate_points_core correct_option votes a).2.map Prod.fst)).Perm
      (votes.map Prod.fst) := by
  constructor
  · rw [winners_keys, losers_keys]
    intro u hu1 hu2
    obtain ⟨q1, hq1, hq1e⟩ := List.mem_map.mp hu1
    obtain ⟨q2, hq2, hq2e⟩ := List.mem_map.mp hu2
    have hq1m := List.mem_filter.mp hq1
    have hq2m := List.mem_filter.mp hq2
    have heq : q1 = q2 := by
      exact List.inj_on_of_nodup_map h hq1m.1 hq2m.1 (by rw [hq1e, hq2e])
    rw [heq] at hq1m
    have h1 := hq1m.2
    have h2 := hq2m.2
    simp at h1 h2
    exact h2 h1
  · exact calc_keys_perm correct_option votes a

/-- Claim C2 witness: two distinct keys, one winner and one loser. -/
theorem winners_losers_partition_witness :
    (([("a", some "A"), ("b", some "B")] :
        List (String × Option String)).map Prod.fst).Nodup ∧
    (((calculate_points_core "A" [("a", some "A"), ("b", some "B")] 25).1.map
        Prod.fst).Disjoint
      ((calculate_points_core "A" [("a", some "A"), ("b", some "B")] 25).2.map
        Prod.fst) ∧
    (((calculate_points_core "A" [("a", some "A"), ("b", some "B")] 25).1.map
        Prod.fst) ++
      ((calculate_points_core "A" [("a", some "A"), ("b", some "B")] 25).2.map
        Prod.fst)).Perm
      (([("a", some "A"), ("b", some "B")] :
        List (String × Option String)).map Prod.fst)) :=
  ⟨by decide, winners_losers_partition "A" [("a", some "A"), ("b", some "B")] 25
    (by decide)⟩

/-- Claim C5: when no entry of the selection mapping equals the correct
option, `calculate_points` returns no winners and assigns `-stake` to every
user, for a total of `-(count * stake)`. -/
theorem forfeiture_no_winner (correct_option : String)
    (votes : List (String × Option String)) (a : ℚ)
    (h : ∀ q ∈ votes, q.2 ≠ some correct_option) :
    (calculate_points_core correct_option votes a).1 = [] ∧
    (calculate_points_core correct_option votes a).2 =
      votes.map (fun q => (q.1, -a)) ∧
    valsSum (calculate_points_core correct_option votes a).2 =
      -((votes.length : ℚ) * a) := by
  have hfn : votes.filter (fun p => decide (p.2 = some correct_option)) = [] := by
    rw [List.filter_eq_nil_iff]
    intro q hq
    simpa using h q hq
  have hfs : votes.filter (fun p => !decide (p.2 = some correct_option)) = votes := by
    rw [List.filter_eq_self]
    intro q hq
    simpa using h q hq
  refine ⟨?_, ?_, ?_⟩
  · simp [calculate_points_core, hfn]
  · simp [calculate_points_core, hfs]
  · simp only [calculate_points_core, hfs]
    rw [valsSum_map_const votes Prod.fst (-a)]
    ring

/-- Claim C5 witness: three users, nobody picked the correct option. -/
theorem forfeiture_no_winner_witness :
    (∀ q ∈ ([("a", some "B"), ("b", some "C"), ("c", none)] :
        List (String × Option String)), q.2 ≠ some "A") ∧
    ((calculate_points_core "A"
        [("a", some "B"), ("b", some "C"), ("c", none)] 25).1 = [] ∧
      (calculate_points_core "A"
        [("a", some "B"), ("b", some "C"), ("c", none)] 25).2 =
        ([("a", some "B"), ("b", some "C"), ("c", none)] :
          List (String × Option String)).map (fun q => (q.1, -25)) ∧
      valsSum (calculate_points_core "A"
        [("a", some "B"), ("b", some "C"), ("c", none)] 25).2 =
        -(((([("a", some "B"), ("b", some "C"), ("c", none)] :
          List (String × Option String))).length : ℚ) * 25)) :=
  ⟨by decide, forfeiture_no_winner "A"
    [("a", some "B"), ("b", some "C"), ("c", none)] 25 (by decide)⟩

/-! ## Claims about stake resolution and ad-hoc eligibility -/

/-- Claim C8: `get_amount_per_vote` returns the constant 50 for ad-hoc polls,
the configured `amount_per_poll` when exactly one `MATCHES` row exists, and
an error when none is found for a non-ad-hoc match. -/
theorem amount_per_vote_spec (s : Store) (m : Nat) (p : String) :
    (p ∈ get_adhoc_poll_type s m → get_amount_per_vote s m p = Except.ok 50) ∧
    (p ∉ get_adhoc_poll_type s m →
      ∀ mt : MatchRow, s.MATCHES.filter (fun r => decide (r.match_id = m)) = [mt] →
        get_amount_per_vote s m p = Except.ok mt.amount_per_poll) ∧
    (p ∉ get_adhoc_poll_type s m →
      s.MATCHES.filter (fun r => decide (r.match_id = m)) = [] →
        ∃ msg, get_amount_per_vote s m p = Except.error msg) := by
  refine ⟨fun hp => ?_, fun hp mt hmt => ?_, fun hp hnil => ?_⟩
  · simp [get_amount_per_vote, hp]
  · simp [get_amount_per_vote, hp, hmt]
  · exact ⟨"No amount per vote found for match",
      by simp [get_amount_per_vote, hp, hnil]⟩

/-- Claim C8 witness: an ad-hoc poll gets 50, a configured match gets its
amount, a missing match errors. -/
theorem amount_per_vote_spec_witness :
    get_amount_per_vote ⟨[], [⟨2, 30⟩], [⟨1, "ad"⟩], [], [], []⟩ 1 "ad" =
      Except.ok 50 ∧
    get_amount_per_vote ⟨[], [⟨2, 30⟩], [⟨1, "ad"⟩], [], [], []⟩ 2 "x" =
      Except.ok 30 ∧
    ∃ msg, get_amount_per_vote ⟨[], [⟨2, 30⟩], [⟨1, "ad"⟩], [], [], []⟩ 3 "x" =
      Except.error msg :=
  ⟨(amount_per_vote_spec ⟨[], [⟨2, 30⟩], [⟨1, "ad"⟩], [], [], []⟩ 1 "ad").1
      (by decide),
   (amount_per_vote_spec ⟨[], [⟨2, 30⟩], [⟨1, "ad"⟩], [], [], []⟩ 2 "x").2.1
      (by decide) ⟨2, 30⟩ (by decide),
   (amount_per_vote_spec ⟨[], [⟨2, 30⟩], [⟨1, "ad"⟩], [], [], []⟩ 3 "x").2.2
      (by decide) (by decide)⟩

/-- Claim C9: `get_eligible_users_adhoc_polls` returns exactly the distinct
set of users with at least one vote on the (match, poll type), and fails if
and only if no such votes exist. -/
theorem adhoc_eligibility_spec (s : Store) (m : Nat) (p : String) :
    (s.VOTES.filter (fun v => decide (v.match_id = m ∧ v.poll_type = p)) ≠ [] →
      ∃ l, get_eligible_users_adhoc_polls s m p = Except.ok l ∧ l.Nodup ∧
        ∀ u, u ∈ l ↔ ∃ v ∈ s.VOTES,
          v.match_id = m ∧ v.poll_type = p ∧ v.user_email = u) ∧
    (s.VOTES.filter (fun v => decide (v.match_id = m ∧ v.poll_type = p)) = [] →
      ∃ msg, get_eligible_users_adhoc_polls s m p = Except.error msg) := by
  constructor
  · intro hne
    refine ⟨((s.VOTES.filter (fun v =>
        decide (v.match_id = m ∧ v.poll_type = p))).map
        (fun v => v.user_email)).dedup, ?_, ?_, ?_⟩
    · simp only [get_eligible_users_adhoc_polls]
      rw [if_neg hne]
    · exact List.nodup_dedup _
    · intro u
      simp [List.mem_dedup, List.mem_map, List.mem_filter, decide_eq_true_eq]
      constructor
      · rintro ⟨v, ⟨hv, hm2, hp2⟩, rfl⟩
        exact ⟨v, hv, hm2, hp2, rfl⟩
      · rintro ⟨v, hv, hm2, hp2, rfl⟩
        exact ⟨v, ⟨hv, hm2, hp2⟩, rfl⟩
  · intro hnil
    refine ⟨"No users found for adhoc poll", ?_⟩
    simp only [get_eligible_users_adhoc_polls]
    rw [if_pos hnil]

/-- Claim C9 witness: one vote exists for (1, w) so eligibility is that
voter; no vote exists for (2, w) so the call errors. -/
theorem adhoc_eligibility_spec_witness :
    (∃ l, get_eligible_users_adhoc_polls
        ⟨[], [], [], [⟨"a@x", 1, "w", "A", 3⟩], [], []⟩ 1 "w" = Except.ok l ∧
       l.Nodup ∧ ∀ u, u ∈ l ↔ ∃ v ∈ ([⟨"a@x", 1, "w", "A", 3⟩] : List Vote),
          v.match_id = 1 ∧ v.poll_type = "w" ∧ v.user_email = u) ∧
    (∃ msg, get_eligible_users_adhoc_polls
        ⟨[], [], [], [⟨"a@x", 1, "w", "A", 3⟩], [], []⟩ 2 "w" =
          Except.error msg) :=
  ⟨(adhoc_eligibility_spec ⟨[], [], [], [⟨"a@x", 1, "w", "A", 3⟩], [], []⟩
      1 "w").1 (by decide),
   (adhoc_eligibility_spec ⟨[], [], [], [⟨"a@x", 1, "w", "A", 3⟩], [], []⟩
      2 "w").2 (by decide)⟩

/-- Claim C10: `store_voting_results` with empty winners and losers issues no
insert: the store, and hence the processed set, is unchanged. -/
theorem store_empty_results_frame (s : Store) (m : Nat) (p : String) :
    store_voting_results s m p [] [] = s ∧
    get_processed_matches (store_voting_results s m p [] []) =
      get_processed_matches s :=
  ⟨rfl, rfl⟩

/-! ## Claims about the vote aggregator -/

lemma updateVote_keys (acc : List (String × Option String)) (v : Vote) :
    (updateVote acc v).map Prod.fst = acc.map Prod.fst := by
  induction acc with
  | nil => rfl
  | cons q rest ih =>
    simp only [updateVote, List.map_cons] at ih ⊢
    rw [ih]
    by_cases hq : q.1 = v.user_email ∧ q.2 = none
    · rw [if_pos hq]
    · rw [if_neg hq]

lemma foldl_updateVote_keys (l : List Vote) (acc : List (String × Option String)) :
    (l.foldl updateVote acc).map Prod.fst = acc.map Prod.fst := by
  induction l generalizing acc with
  | nil => rfl
  | cons v rest ih => rw [List.foldl_cons, ih, updateVote_keys]

lemma dictGet_updateVote_ne (acc : List (String × Option String)) (v : Vote)
    (u : String) (h : v.user_email ≠ u) :
    dictGet u (updateVote acc v) = dictGet u acc := by
  induction acc with
  | nil => rfl
  | cons q rest ih =>
    by_cases hq : q.1 = v.user_email ∧ q.2 = none
    · have hqu : ¬ q.1 = u := by rw [hq.1]; exact h
      simp only [updateVote, List.map_cons, if_pos hq, dictGet, if_neg hqu]
      simpa [updateVote] using ih
    · simp only [updateVote, List.map_cons, if_neg hq, dictGet]
      by_cases hqu : q.1 = u
      · simp [if_pos hqu]
      · simp only [if_neg hqu]
        simpa [updateVote] using ih

lemma dictGet_updateVote_none (acc : List (String × Option String)) (v : Vote)
    (u : String) (hv : v.user_email = u) (h : dictGet u acc = some none) :
    dictGet u (updateVote acc v) = some (some v.option_voted) := by
  induction acc with
  | nil => simp [dictGet] at h
  | cons q rest ih =>
    simp only [dictGet] at h
    by_cases hqu : q.1 = u
    · rw [if_pos hqu] at h
      have hq2 : q.2 = none := by simpa using h
      have hq : q.1 = v.user_email ∧ q.2 = none := ⟨by rw [hqu, hv], hq2⟩
      simp only [updateVote, List.map_cons, if_pos hq, dictGet, if_pos hqu]
    · rw [if_neg hqu] at h
      by_cases hq : q.1 = v.user_email ∧ q.2 = none
      · simp only [updateVote, List.map_cons, if_pos hq, dictGet, if_neg hqu]
        simpa [updateVote] using ih h
      · simp only [updateVote, List.map_cons, if_neg hq, dictGet, if_neg hqu]
        simpa [updateVote] using ih h

lemma dictGet_updateVote_some (acc : List (String × Option String)) (v : Vote)
    (u : String) (x : String) (h : dictGet u acc = some (some x)) :
    dictGet u (updateVote acc v) = some (some x) := by
  induction acc with
  | nil => simp [dictGet] at h
  | cons q rest ih =>
    simp only [dictGet] at h
    by_cases hqu : q.1 = u
    · rw [if_pos hqu] at h
      have hq2 : q.2 = some x := by simpa using h
      have hq : ¬ (q.1 = v.user_email ∧ q.2 = none) := by
        rintro ⟨_, h2⟩
        rw [h2] at hq2
        exact Option.noConfusion hq2
      simp only [updateVote, List.map_cons, if_neg hq, dictGet, if_pos hqu]
      simpa using h
    · rw [if_neg hqu] at h
      by_cases hq : q.1 = v.user_email ∧ q.2 = none
      · simp only [updateVote, List.map_cons, if_pos hq, dictGet, if_neg hqu]
        simpa [updateVote] using ih h
      · simp only [updateVote, List.map_cons, if_neg hq, dictGet, if_neg hqu]
        simpa [updateVote] using ih h

lemma dictGet_foldl_some (l : List Vote) (acc : List (String × Option String))
    (u : String) (x : String) (h : dictGet u acc = some (some x)) :
    dictGet u (l.foldl updateVote acc) = some (some x) := by
  induction l generalizing acc with
  | nil => exact h
  | cons v rest ih =>
    rw [List.foldl_cons]
    exact ih _ (dictGet_updateVote_some acc v u x h)

lemma dictGet_foldl (l : List Vote) (acc : List (String × Option String))
    (u : String) (h : dictGet u acc = some none) :
    dictGet u (l.foldl updateVote acc) =
      some ((firstVoteOf u l).map (fun v => v.option_voted)) := by
  induction l generalizing acc with
  | nil => simpa [firstVoteOf] using h
  | cons v rest ih =>
    rw [List.foldl_cons]
    by_cases hv : v.user_email = u
    · rw [firstVoteOf, if_pos hv]
      exact dictGet_foldl_some rest _ u v.option_voted
        (dictGet_updateVote_none acc v u hv h)
    · rw [firstVoteOf, if_neg hv]
      exact ih _ (by rw [dictGet_updateVote_ne acc v u hv]; exact h)

lemma dictGet_init (ks : List String) (u : String) (h : u ∈ ks) :
    dictGet u (ks.map (fun x => (x, (none : Option String)))) = some none := by
  induction ks with
  | nil => simp at h
  | cons k rest ih =>
    simp only [List.map_cons, dictGet]
    by_cases hk : k = u
    · rw [if_pos hk]
    · rw [if_neg hk]
      exact ih (by cases List.mem_cons.mp h with
        | inl he => exact absurd he.symm hk
        | inr hm => exact hm)

lemma firstVoteOf_eq_none (u : String) (l : List Vote)
    (h : ∀ v ∈ l, v.user_email ≠ u) : firstVoteOf u l = none := by
  induction l with
  | nil => rfl
  | cons v rest ih =>
    rw [firstVoteOf, if_neg (h v (List.mem_cons_self v rest))]
    exact ih (fun w hw => h w (List.mem_cons_of_mem v hw))

lemma get_latest_votes_ok (s : Store) (m : Nat) (p : String)
    (d : List (String × Option String))
    (hd : get_latest_votes s m p = Except.ok d) :
    ∃ elig, eligibleUsersFor s m p = Except.ok elig ∧
      d = (List.insertionSort voteOrder
        (s.VOTES.filter (fun v =>
          decide (v.match_id = m ∧ v.poll_type = p)))).foldl updateVote
        (elig.dedup.map (fun x => (x, (none : Option String)))) := by
  cases he : eligibleUsersFor s m p with
  | error e =>
    rw [get_latest_votes, he] at hd
    exact Except.noConfusion hd
  | ok elig =>
    refine ⟨elig, rfl, ?_⟩
    rw [get_latest_votes, he] at hd
    injection hd with h
    exact h.symm

/-- Claim C7: the mapping returned by `get_latest_votes` has exactly the
eligible users as keys, with no duplicates; eligible non-voters keep the
no-selection value, and votes by ineligible users add no entry. -/
theorem latest_votes_coverage (s : Store) (m : Nat) (p : String)
    (d : List (String × Option String))
    (hd : get_latest_votes s m p = Except.ok d) :
    ∃ elig, eligibleUsersFor s m p = Except.ok elig ∧
      (∀ u, u ∈ d.map Prod.fst ↔ u ∈ elig) ∧
      (d.map Prod.fst).Nodup ∧
      (∀ u, u ∈ elig →
        (∀ v ∈ s.VOTES, v.match_id = m → v.poll_type = p → v.user_email ≠ u) →
        dictGet u d = some none) := by
  obtain ⟨elig, he, hdef⟩ := get_latest_votes_ok s m p d hd
  have hkeys : d.map Prod.fst = elig.dedup := by
    rw [hdef, foldl_updateVote_keys, List.map_map]
    exact List.map_id elig.dedup
  refine ⟨elig, he, ?_, ?_, ?_⟩
  · intro u
    rw [hkeys, List.mem_dedup]
  · rw [hkeys]
    exact List.nodup_dedup elig
  · intro u hu hnov
    rw [hdef, dictGet_foldl _ _ u
      (dictGet_init elig.dedup u (List.mem_dedup.mpr hu))]
    rw [firstVoteOf_eq_none]
    · rfl
    · intro v hv
      rw [List.mem_insertionSort] at hv
      have := List.mem_filter.mp hv
      have hc := of_decide_eq_true this.2
      exact hnov v this.1 hc.1 hc.2

lemma firstVoteOf_eq_head_filter (u : String) (l : List Vote) :
    firstVoteOf u l = (l.filter (fun v => decide (v.user_email = u))).head? := by
  induction l with
  | nil => rfl
  | cons v rest ih =>
    by_cases hv : v.user_email = u
    · rw [firstVoteOf, if_pos hv, List.filter_cons_of_pos (by simpa using hv)]
      rfl
    · rw [firstVoteOf, if_neg hv, List.filter_cons_of_neg (by simpa using hv)]
      exact ih

lemma filter_match_then_user (l : List Vote) (m : Nat) (p : String) (u : String) :
    (l.filter (fun v => decide (v.match_id = m ∧ v.poll_type = p))).filter
      (fun v => decide (v.user_email = u)) =
    l.filter (fun v =>
      decide (v.match_id = m ∧ v.poll_type = p ∧ v.user_email = u)) := by
  rw [List.filter_filter]
  apply List.filter_congr
  intro v _
  have hbool : ∀ (a b : Bool), (a = true ↔ b = true) → a = b := by decide
  apply hbool
  simp only [Bool.and_eq_true, decide_eq_true_eq]
  tauto

lemma head_of_pairwise_perm_pair (l : List Vote) (v1 v2 : Vote)
    (hperm : l.Perm [v1, v2]) (hp : l.Pairwise voteOrder)
    (ht : v1.created_timestamp < v2.created_timestamp) :
    l.head? = some v2 := by
  have hlen : l.length = 2 := by rw [hperm.length_eq]; rfl
  obtain ⟨x, y, rfl⟩ : ∃ x y, l = [x, y] := by
    match l, hlen with
    | [x, y], _ => exact ⟨x, y, rfl⟩
  have hne12 : v1 ≠ v2 := by
    intro hcontra
    rw [hcontra] at ht
    exact lt_irrefl _ ht
  have hx : x ∈ [v1, v2] := hperm.subset (List.mem_cons_self _ _)
  have hxy : voteOrder x y :=
    (List.pairwise_cons.mp hp).1 y (List.mem_cons_self y [])
  have hv2mem : v2 ∈ ([x, y] : List Vote) := hperm.mem_iff.mpr (by simp)
  have hx2 : x = v2 := by
    rcases List.mem_cons.mp hx with h1 | h1
    · rcases List.mem_cons.mp hv2mem with h2 | h2
      · exact h2.symm
      · have h2y : v2 = y := by simpa using h2
        rw [h1, ← h2y] at hxy
        exact absurd hxy (by simp only [voteOrder]; omega)
    · simpa using h1
  rw [hx2]
  rfl

/-- Claim C6: when user `u` has exactly two votes for the (match, poll type)
with different timestamps, however they are stored, the selection recorded
for `u` by `get_latest_votes` is the option of the later vote. -/
theorem latest_vote_wins (s : Store) (m : Nat) (p : String) (u : String)
    (d : List (String × Option String)) (v1 v2 : Vote)
    (hd : get_latest_votes s m p = Except.ok d)
    (hu : u ∈ d.map Prod.fst)
    (hv : s.VOTES.filter (fun v =>
        decide (v.match_id = m ∧ v.poll_type = p ∧ v.user_email = u)) = [v1, v2] ∨
      s.VOTES.filter (fun v =>
        decide (v.match_id = m ∧ v.poll_type = p ∧ v.user_email = u)) = [v2, v1])
    (ht : v1.created_timestamp < v2.created_timestamp) :
    dictGet u d = some (some v2.option_voted) := by
  obtain ⟨elig, he, hdef⟩ := get_latest_votes_ok s m p d hd
  have hkeys : d.map Prod.fst = elig.dedup := by
    rw [hdef, foldl_updateVote_keys, List.map_map]
    exact List.map_id elig.dedup
  have hud : u ∈ elig.dedup := by rw [← hkeys]; exact hu
  have hget := dictGet_foldl
    (List.insertionSort voteOrder (s.VOTES.filter (fun v =>
      decide (v.match_id = m ∧ v.poll_type = p))))
    (elig.dedup.map (fun x => (x, (none : Option String)))) u
    (dictGet_init elig.dedup u hud)
  rw [← hdef] at hget
  rw [hget]
  have hperm : ((List.insertionSort voteOrder (s.VOTES.filter (fun v =>
      decide (v.match_id = m ∧ v.poll_type = p)))).filter
        (fun v => decide (v.user_email = u))).Perm [v1, v2] := by
    have h0 := List.Perm.filter (fun v => decide (v.user_email = u))
      (List.perm_insertionSort voteOrder (s.VOTES.filter (fun v =>
        decide (v.match_id = m ∧ v.poll_type = p))))
    rw [filter_match_then_user] at h0
    cases hv with
    | inl h1 => rw [h1] at h0; exact h0
    | inr h1 =>
      rw [h1] at h0
      exact h0.trans (List.Perm.swap v1 v2 [])
  have hsorted : ((List.insertionSort voteOrder (s.VOTES.filter (fun v =>
      decide (v.match_id = m ∧ v.poll_type = p)))).filter
        (fun v => decide (v.user_email = u))).Pairwise voteOrder :=
    List.Pairwise.sublist (List.filter_sublist _)
      (List.sorted_insertionSort voteOrder _)
  have hfv : firstVoteOf u (List.insertionSort voteOrder
      (s.VOTES.filter (fun v =>
        decide (v.match_id = m ∧ v.poll_type = p)))) = some v2 := by
    rw [firstVoteOf_eq_head_filter]
    exact head_of_pairwise_perm_pair _ v1 v2 hperm hsorted ht
  rw [hfv]
  rfl


/-- Claim C6 witness: two votes by one user, earlier-timestamp vote stored
first; the later vote's option is recorded. -/
theorem latest_vote_wins_witness :
    get_latest_votes ⟨[⟨"a@x", 1, none⟩], [⟨1, 25⟩], [],
      [⟨"a@x", 1, "w", "A", 1⟩, ⟨"a@x", 1, "w", "B", 2⟩], [], []⟩ 1 "w" =
      Except.ok [("a@x", some "B")] ∧
    dictGet "a@x" [("a@x", some "B")] = some (some "B") :=
  ⟨rfl, latest_vote_wins
    ⟨[⟨"a@x", 1, none⟩], [⟨1, 25⟩], [],
      [⟨"a@x", 1, "w", "A", 1⟩, ⟨"a@x", 1, "w", "B", 2⟩], [], []⟩ 1 "w" "a@x"
    [("a@x", some "B")] ⟨"a@x", 1, "w", "A", 1⟩ ⟨"a@x", 1, "w", "B", 2⟩
    rfl (by decide) (Or.inl (by decide)) (by decide)⟩

/-- Claim C7 witness: one eligible voter and one eligible non-voter; an
ineligible user's vote adds no entry. -/
theorem latest_votes_coverage_witness :
    ∃ elig, eligibleUsersFor ⟨[⟨"a@x", 1, none⟩, ⟨"b@x", 1, none⟩],
        [⟨1, 25⟩], [], [⟨"a@x", 1, "w", "A", 1⟩, ⟨"z@x", 1, "w", "A", 2⟩],
        [], []⟩ 1 "w" = Except.ok elig ∧
      (∀ u, u ∈ ([("a@x", some "A"), ("b@x", none)] :
          List (String × Option String)).map Prod.fst ↔ u ∈ elig) ∧
      (([("a@x", some "A"), ("b@x", none)] :
          List (String × Option String)).map Prod.fst).Nodup ∧
      (∀ u, u ∈ elig →
        (∀ v ∈ ([⟨"a@x", 1, "w", "A", 1⟩, ⟨"z@x", 1, "w", "A", 2⟩] : List Vote),
          v.match_id = 1 → v.poll_type = "w" → v.user_email ≠ u) →
        dictGet u [("a@x", some "A"), ("b@x", none)] = some none) :=
  latest_votes_coverage ⟨[⟨"a@x", 1, none⟩, ⟨"b@x", 1, none⟩],
    [⟨1, 25⟩], [], [⟨"a@x", 1, "w", "A", 1⟩, ⟨"z@x", 1, "w", "A", 2⟩],
    [], []⟩ 1 "w" [("a@x", some "A"), ("b@x", none)] rfl

/-! ## Claims about the reconciliation driver -/

lemma sameBase_refl (s : Store) : sameBase s s :=
  ⟨rfl, rfl, rfl, rfl, rfl⟩

lemma sameBase_trans {s t v : Store} (h1 : sameBase s t) (h2 : sameBase t v) :
    sameBase s v :=
  ⟨h1.1.trans h2.1, h1.2.1.trans h2.2.1, h1.2.2.1.trans h2.2.2.1,
    h1.2.2.2.1.trans h2.2.2.2.1, h1.2.2.2.2.trans h2.2.2.2.2⟩

lemma sameBase_setVR (s : Store) (vr : List VotingResult) :
    sameBase s { s with VOTING_RESULTS := vr } :=
  ⟨rfl, rfl, rfl, rfl, rfl⟩

lemma get_adhoc_poll_type_base {s t : Store} (h : sameBase s t) (m : Nat) :
    get_adhoc_poll_type s m = get_adhoc_poll_type t m := by
  unfold get_adhoc_poll_type
  rw [h.2.2.1]

lemma get_eligible_users_base {s t : Store} (h : sameBase s t) (m : Nat) :
    get_eligible_users s m = get_eligible_users t m := by
  unfold get_eligible_users
  rw [h.1]

lemma get_eligible_users_adhoc_base {s t : Store} (h : sameBase s t)
    (m : Nat) (p : String) :
    get_eligible_users_adhoc_polls s m p = get_eligible_users_adhoc_polls t m p := by
  unfold get_eligible_users_adhoc_polls
  rw [h.2.2.2.1]

lemma get_latest_votes_base {s t : Store} (h : sameBase s t)
    (m : Nat) (p : String) :
    get_latest_votes s m p = get_latest_votes t m p := by
  unfold get_latest_votes eligibleUsersFor
  rw [get_adhoc_poll_type_base h, get_eligible_users_base h,
    get_eligible_users_adhoc_base h, h.2.2.2.1]

lemma get_amount_per_vote_base {s t : Store} (h : sameBase s t)
    (m : Nat) (p : String) :
    get_amount_per_vote s m p = get_amount_per_vote t m p := by
  unfold get_amount_per_vote
  rw [get_adhoc_poll_type_base h, h.2.1]

lemma entriesOf_base {s t : Store} (h : sameBase s t) (c : Candidate) :
    entriesOf s c = entriesOf t c := by
  unfold entriesOf
  rw [get_latest_votes_base h, get_amount_per_vote_base h]

lemma settleOk_base {s t : Store} (h : sameBase s t) (c : Candidate) :
    settleOk s c ↔ settleOk t c := by
  unfold settleOk
  rw [get_latest_votes_base h, get_amount_per_vote_base h]

lemma exceptOkBind {γ α β : Type} (a : α) (f : α → Except γ β) :
    (Except.ok a : Except γ α) >>= f = f a := rfl

lemma exceptErrorBind {γ α β : Type} (e : γ) (f : α → Except γ β) :
    (Except.error e : Except γ α) >>= f = Except.error e := rfl

lemma store_voting_results_eq (s : Store) (m : Nat) (p : String)
    (w l : List (String × ℚ)) :
    store_voting_results s m p w l =
      { s with VOTING_RESULTS := s.VOTING_RESULTS ++
          (w.map (fun wp => VotingResult.mk m p wp.1 wp.2 true) ++
           l.map (fun lp => VotingResult.mk m p lp.1 lp.2 true)) } := by
  unfold store_voting_results
  by_cases h : (w.map (fun wp => VotingResult.mk m p wp.1 wp.2 true) ++
      l.map (fun lp => VotingResult.mk m p lp.1 lp.2 true)) = []
  · rw [if_pos h, h]
    cases s
    simp
  · rw [if_neg h]

lemma process_result_ok {s s' : Store} {c : Candidate}
    (h : process_result s c = Except.ok s') :
    settleOk s c ∧
      s' = { s with VOTING_RESULTS := s.VOTING_RESULTS ++ entriesOf s c } := by
  cases hv : get_latest_votes s c.match_id c.poll_type with
  | error e =>
    rw [process_result, hv, exceptErrorBind] at h
    exact Except.noConfusion h
  | ok votes =>
    cases ha : get_amount_per_vote s c.match_id c.poll_type with
    | error e =>
      rw [process_result, hv, exceptOkBind, calculate_points, ha,
        exceptErrorBind, exceptErrorBind] at h
      exact Except.noConfusion h
    | ok amt =>
      rw [process_result, hv, exceptOkBind, calculate_points, ha,
        exceptOkBind, exceptOkBind] at h
      refine ⟨⟨⟨votes, hv⟩, ⟨amt, ha⟩⟩, ?_⟩
      injection h with h2
      rw [← h2, store_voting_results_eq]
      simp only [entriesOf, hv, ha]

lemma process_result_of_settleOk {s : Store} {c : Candidate}
    (h : settleOk s c) :
    process_result s c =
      Except.ok { s with VOTING_RESULTS := s.VOTING_RESULTS ++ entriesOf s c } := by
  obtain ⟨⟨votes, hv⟩, ⟨amt, ha⟩⟩ := h
  rw [process_result, hv, exceptOkBind, calculate_points, ha,
    exceptOkBind, exceptOkBind]
  simp only [entriesOf, hv, ha]
  rw [store_voting_results_eq]

lemma entriesOf_fields (s : Store) (c : Candidate) :
    ∀ r ∈ entriesOf s c, r.match_id = c.match_id ∧ r.poll_type = c.poll_type ∧
      r.is_valid = true := by
  intro r hr
  unfold entriesOf at hr
  cases hv : get_latest_votes s c.match_id c.poll_type with
  | error e => rw [hv] at hr; simp at hr
  | ok votes =>
    cases ha : get_amount_per_vote s c.match_id c.poll_type with
    | error e => rw [hv, ha] at hr; simp at hr
    | ok amt =>
      rw [hv, ha] at hr
      rcases List.mem_append.mp hr with h1 | h1 <;>
        · obtain ⟨q, _, rfl⟩ := List.mem_map.mp h1
          exact ⟨rfl, rfl, rfl⟩

lemma latest_votes_keys_nodup (s : Store) (m : Nat) (p : String)
    (votes : List (String × Option String))
    (h : get_latest_votes s m p = Except.ok votes) :
    (votes.map Prod.fst).Nodup := by
  obtain ⟨elig, he, hdef⟩ := get_latest_votes_ok s m p votes h
  have hk : votes.map Prod.fst = elig.dedup := by
    rw [hdef, foldl_updateVote_keys, List.map_map]
    exact List.map_id elig.dedup
  rw [hk]
  exact List.nodup_dedup elig

lemma entriesOf_users_nodup (s : Store) (c : Candidate) :
    ((entriesOf s c).map (fun r => r.user_email)).Nodup := by
  unfold entriesOf
  cases hv : get_latest_votes s c.match_id c.poll_type with
  | error e => simp
  | ok votes =>
    cases ha : get_amount_per_vote s c.match_id c.poll_type with
    | error e => simp
    | ok amt =>
      simp only [List.map_append, List.map_map]
      have hperm := calc_keys_perm c.correct_option votes amt
      have hnd := latest_votes_keys_nodup s c.match_id c.poll_type votes hv
      have : ((calculate_points_core c.correct_option votes amt).1.map
            Prod.fst ++
          (calculate_points_core c.correct_option votes amt).2.map
            Prod.fst).Nodup := hperm.nodup_iff.mpr hnd
      simpa using this

lemma rowsFor_setVR_append (s : Store) (es : List VotingResult) (m : Nat)
    (p : String) :
    rowsFor { s with VOTING_RESULTS := s.VOTING_RESULTS ++ es } m p =
      rowsFor s m p ++
        es.filter (fun r => decide (r.match_id = m ∧ r.poll_type = p)) := by
  unfold rowsFor
  exact List.filter_append _ _

lemma entriesOf_filter_self (s : Store) (c : Candidate) :
    (entriesOf s c).filter (fun r =>
      decide (r.match_id = c.match_id ∧ r.poll_type = c.poll_type)) =
      entriesOf s c := by
  rw [List.filter_eq_self]
  intro r hr
  have := entriesOf_fields s c r hr
  simp [this.1, this.2.1]

lemma entriesOf_filter_ne (s : Store) (c : Candidate) (m : Nat) (p : String)
    (h : (m, p) ≠ cpair c) :
    (entriesOf s c).filter (fun r =>
      decide (r.match_id = m ∧ r.poll_type = p)) = [] := by
  rw [List.filter_eq_nil_iff]
  intro r hr
  have hf := entriesOf_fields s c r hr
  simp only [decide_eq_true_eq]
  rintro ⟨h1, h2⟩
  exact h (by rw [cpair, ← hf.1, ← hf.2.1, h1, h2])

lemma entriesOf_filter_valid (s : Store) (c : Candidate) :
    (entriesOf s c).filter (fun r => r.is_valid) = entriesOf s c := by
  rw [List.filter_eq_self]
  intro r hr
  exact (entriesOf_fields s c r hr).2.2

lemma filter_pair_map (L : List VotingResult) (g : VotingResult → VotingResult)
    (hg : ∀ r, (g r).match_id = r.match_id ∧ (g r).poll_type = r.poll_type)
    (m : Nat) (p : String) :
    (L.map g).filter (fun r => decide (r.match_id = m ∧ r.poll_type = p)) =
      (L.filter (fun r => decide (r.match_id = m ∧ r.poll_type = p))).map g := by
  induction L with
  | nil => rfl
  | cons r L ih =>
    simp only [List.map_cons, List.filter_cons, (hg r).1, (hg r).2]
    by_cases h2 : r.match_id = m ∧ r.poll_type = p
    · rw [if_pos (decide_eq_true h2), if_pos (decide_eq_true h2),
        List.map_cons, ih]
    · rw [if_neg (by simpa using h2), if_neg (by simpa using h2), ih]

lemma rowsFor_set_valid (s : Store) (q1 m : Nat) (q2 p : String) :
    rowsFor (set_valid_to_false s q1 q2) m p =
      if q1 = m ∧ q2 = p then
        (rowsFor s m p).map (fun r => { r with is_valid := false })
      else rowsFor s m p := by
  have hbase : rowsFor (set_valid_to_false s q1 q2) m p =
      (rowsFor s m p).map (fun r =>
        if r.match_id = q1 ∧ r.poll_type = q2 then
          { r with is_valid := false } else r) := by
    unfold set_valid_to_false rowsFor
    simp only
    exact filter_pair_map s.VOTING_RESULTS _
      (fun r => by by_cases h : r.match_id = q1 ∧ r.poll_type = q2 <;>
        simp [h]) m p
  rw [hbase]
  by_cases hq : q1 = m ∧ q2 = p
  · rw [if_pos hq]
    apply List.map_congr_left
    intro r hr
    have hmem := List.mem_filter.mp hr
    have hpr := of_decide_eq_true hmem.2
    rw [if_pos ⟨hpr.1.trans hq.1.symm, hpr.2.trans hq.2.symm⟩]
  · rw [if_neg hq]
    have : ∀ r ∈ rowsFor s m p,
        (if r.match_id = q1 ∧ r.poll_type = q2 then
          { r with is_valid := false } else r) = r := by
      intro r hr
      have hmem := List.mem_filter.mp hr
      have hpr := of_decide_eq_true hmem.2
      rw [if_neg]
      rintro ⟨ha, hb⟩
      exact hq ⟨ha.symm.trans hpr.1, hb.symm.trans hpr.2⟩
    rw [List.map_congr_left this]
    exact List.map_id _

lemma invalidate_foldl_base (qs : List (Nat × String)) (s : Store) :
    sameBase s (qs.foldl (fun st q => set_valid_to_false st q.1 q.2) s) := by
  induction qs generalizing s with
  | nil => exact sameBase_refl s
  | cons q rest ih =>
    rw [List.foldl_cons]
    exact sameBase_trans (sameBase_setVR s _) (ih (set_valid_to_false s q.1 q.2))

lemma validRowsFor_set_valid (s : Store) (q1 m : Nat) (q2 p : String) :
    validRowsFor (set_valid_to_false s q1 q2) m p =
      if q1 = m ∧ q2 = p then [] else validRowsFor s m p := by
  unfold validRowsFor
  rw [rowsFor_set_valid]
  by_cases hq : q1 = m ∧ q2 = p
  · rw [if_pos hq, if_pos hq, List.filter_eq_nil_iff]
    intro r hr
    obtain ⟨r0, _, rfl⟩ := List.mem_map.mp hr
    simp
  · rw [if_neg hq, if_neg hq]

lemma rowsFor_invalidate (qs : List (Nat × String)) (s : Store) (m : Nat)
    (p : String) :
    rowsFor (qs.foldl (fun st q => set_valid_to_false st q.1 q.2) s) m p =
      if (m, p) ∈ qs then
        (rowsFor s m p).map (fun r => { r with is_valid := false })
      else rowsFor s m p := by
  induction qs generalizing s with
  | nil => simp
  | cons q rest ih =>
    rw [List.foldl_cons, ih (set_valid_to_false s q.1 q.2), rowsFor_set_valid]
    by_cases hq : q.1 = m ∧ q.2 = p
    · have hmem : (m, p) ∈ q :: rest := by
        rw [show q = (m, p) from Prod.ext hq.1 hq.2]
        exact List.mem_cons_self _ _
      rw [if_pos hq, if_pos hmem]
      by_cases hr : (m, p) ∈ rest
      · rw [if_pos hr, List.map_map]
        rfl
      · rw [if_neg hr]
    · rw [if_neg hq]
      by_cases hr : (m, p) ∈ rest
      · rw [if_pos hr, if_pos (List.mem_cons_of_mem q hr)]
      · rw [if_neg hr, if_neg]
        intro hmem
        rcases List.mem_cons.mp hmem with h1 | h1
        · exact hq ⟨congrArg Prod.fst h1.symm, congrArg Prod.snd h1.symm⟩
        · exact hr h1

lemma validRowsFor_invalidate (qs : List (Nat × String)) (s : Store) (m : Nat)
    (p : String) :
    validRowsFor (qs.foldl (fun st q => set_valid_to_false st q.1 q.2) s) m p =
      if (m, p) ∈ qs then [] else validRowsFor s m p := by
  unfold validRowsFor
  rw [rowsFor_invalidate]
  by_cases hq : (m, p) ∈ qs
  · rw [if_pos hq, if_pos hq, List.filter_eq_nil_iff]
    intro r hr
    obtain ⟨r0, _, rfl⟩ := List.mem_map.mp hr
    simp
  · rw [if_neg hq, if_neg hq]

lemma foldlM_process (cs : List Candidate) (s s' : Store)
    (hnd : (cs.map cpair).Nodup)
    (h : cs.foldlM process_result s = Except.ok s') :
    sameBase s s' ∧
    (∀ m p, (m, p) ∉ cs.map cpair → rowsFor s' m p = rowsFor s m p) ∧
    (∀ c ∈ cs, settleOk s c ∧
      rowsFor s' c.match_id c.poll_type =
        rowsFor s c.match_id c.poll_type ++ entriesOf s c) := by
  induction cs generalizing s with
  | nil =>
    have hs : s' = s := by
      simp only [List.foldlM_nil] at h
      injection h with h2
      exact h2.symm
    rw [hs]
    exact ⟨sameBase_refl s, fun m p _ => rfl, fun c hc => absurd hc (by simp)⟩
  | cons c cs ih =>
    rw [List.foldlM_cons] at h
    cases hp : process_result s c with
    | error e =>
      rw [hp] at h
      exact Except.noConfusion h
    | ok s1 =>
      rw [hp, exceptOkBind] at h
      obtain ⟨hok, hs1⟩ := process_result_ok hp
      have hbase1 : sameBase s s1 := hs1 ▸ sameBase_setVR s _
      have hnd2 : (cs.map cpair).Nodup := (List.nodup_cons.mp hnd).2
      have hcn : cpair c ∉ cs.map cpair := (List.nodup_cons.mp hnd).1
      obtain ⟨hbase2, hframe, hproc⟩ := ih s1 hnd2 h
      have hrows1 : ∀ m p, rowsFor s1 m p = rowsFor s m p ++
          (entriesOf s c).filter (fun r =>
            decide (r.match_id = m ∧ r.poll_type = p)) := by
        intro m p
        rw [hs1, rowsFor_setVR_append]
      refine ⟨sameBase_trans hbase1 hbase2, ?_, ?_⟩
      · intro m p hmp
        have hm1 : (m, p) ∉ cs.map cpair := by
          intro hx
          exact hmp (List.mem_cons_of_mem _ hx)
        have hmc : (m, p) ≠ cpair c := by
          intro hx
          exact hmp (by rw [hx]; exact List.mem_cons_self _ _)
        rw [hframe m p hm1, hrows1, entriesOf_filter_ne s c m p hmc,
          List.append_nil]
      · intro c' hc'
        rcases List.mem_cons.mp hc' with h1 | h1
        · subst h1
          refine ⟨hok, ?_⟩
          rw [hframe c'.match_id c'.poll_type (by exact hcn), hrows1,
            entriesOf_filter_self]
        · obtain ⟨hok', hrows'⟩ := hproc c' h1
          refine ⟨(settleOk_base hbase1 c').mpr hok', ?_⟩
          have hmc : (c'.match_id, c'.poll_type) ≠ cpair c := by
            intro hx
            apply hcn
            rw [← hx]
            exact List.mem_map.mpr ⟨c', h1, rfl⟩
          rw [hrows', hrows1, entriesOf_filter_ne s c _ _ hmc,
            List.append_nil, entriesOf_base hbase1 c']

lemma mem_processed_iff (s : Store) (m : Nat) (p : String) :
    (m, p) ∈ get_processed_matches s ↔ validRowsFor s m p ≠ [] := by
  unfold get_processed_matches validRowsFor rowsFor
  rw [List.mem_dedup, List.mem_map]
  constructor
  · rintro ⟨r, hr, hpair⟩
    have hm := List.mem_filter.mp hr
    intro hnil
    rw [List.filter_eq_nil_iff] at hnil
    have hp2 : r.match_id = m ∧ r.poll_type = p :=
      ⟨congrArg Prod.fst hpair, congrArg Prod.snd hpair⟩
    have hrin : r ∈ s.VOTING_RESULTS.filter (fun r =>
        decide (r.match_id = m ∧ r.poll_type = p)) :=
      List.mem_filter.mpr ⟨hm.1, decide_eq_true hp2⟩
    exact hnil r hrin hm.2
  · intro hne
    obtain ⟨r, hr⟩ := List.exists_mem_of_ne_nil _ hne
    have hm1 := List.mem_filter.mp hr
    have hm2 := List.mem_filter.mp hm1.1
    have hp2 := of_decide_eq_true hm2.2
    exact ⟨r, List.mem_filter.mpr ⟨hm2.1, hm1.2⟩, by rw [hp2.1, hp2.2]⟩

lemma nodup_filter_length_le (l : List VotingResult) (u : String)
    (h : (l.map (fun r => r.user_email)).Nodup) :
    (l.filter (fun r2 => decide (r2.user_email = u))).length ≤ 1 := by
  induction l with
  | nil => simp
  | cons r rest ih =>
    rw [List.map_cons, List.nodup_cons] at h
    rw [List.filter_cons]
    by_cases hr : r.user_email = u
    · rw [if_pos (decide_eq_true hr)]
      have : rest.filter (fun r2 => decide (r2.user_email = u)) = [] := by
        rw [List.filter_eq_nil_iff]
        intro r2 hr2
        simp only [decide_eq_true_eq]
        intro he
        exact h.1 (List.mem_map.mpr ⟨r2, hr2, he.trans hr.symm⟩)
      rw [this]
      simp
    · rw [if_neg (by simpa using hr)]
      exact ih h.2

/-- The inner duplicate count of `get_invalid_voting_results_polls`,
restated through `validRowsFor`. -/
lemma incorrect_count_eq (s : Store) (r : VotingResult) :
    (s.VOTING_RESULTS.filter (fun r2 => r2.is_valid)).filter (fun r2 =>
        decide (r2.match_id = r.match_id ∧ r2.poll_type = r.poll_type ∧
          r2.user_email = r.user_email)) =
      (validRowsFor s r.match_id r.poll_type).filter (fun r2 =>
        decide (r2.user_email = r.user_email)) := by
  unfold validRowsFor rowsFor
  rw [List.filter_filter, List.filter_filter, List.filter_filter]
  apply List.filter_congr
  intro r2 _
  have hbool : ∀ (a b : Bool), (a = true ↔ b = true) → a = b := by decide
  apply hbool
  simp only [Bool.and_eq_true, decide_eq_true_eq]
  tauto

lemma incorrect_nil (s : Store)
    (h : ∀ m p, ((validRowsFor s m p).map (fun r => r.user_email)).Nodup) :
    get_invalid_voting_results_polls s = [] := by
  unfold get_invalid_voting_results_polls
  simp only
  suffices hfilter : (s.VOTING_RESULTS.filter (fun r => r.is_valid)).filter
      (fun r => decide (1 < ((s.VOTING_RESULTS.filter
        (fun r2 => r2.is_valid)).filter (fun r2 =>
          decide (r2.match_id = r.match_id ∧ r2.poll_type = r.poll_type ∧
            r2.user_email = r.user_email))).length)) = [] by
    rw [hfilter]
    rfl
  rw [List.filter_eq_nil_iff]
  intro r _
  simp only [decide_eq_true_eq, not_lt]
  rw [incorrect_count_eq s r]
  exact nodup_filter_length_le _ _ (h r.match_id r.poll_type)

lemma exists_dup_of_not_nodup (l : List VotingResult)
    (hnd : ¬ (l.map (fun r => r.user_email)).Nodup) :
    ∃ r ∈ l, 1 < (l.filter (fun r2 =>
      decide (r2.user_email = r.user_email))).length := by
  induction l with
  | nil => simp at hnd
  | cons a rest ih =>
    rw [List.map_cons, List.nodup_cons] at hnd
    push_neg at hnd
    by_cases hmem : a.user_email ∈ rest.map (fun r => r.user_email)
    · refine ⟨a, List.mem_cons_self _ _, ?_⟩
      obtain ⟨b, hb, hbe⟩ := List.mem_map.mp hmem
      rw [List.filter_cons, if_pos (decide_eq_true rfl)]
      have hbf : b ∈ rest.filter (fun r2 =>
          decide (r2.user_email = a.user_email)) :=
        List.mem_filter.mpr ⟨hb, decide_eq_true hbe⟩
      have : 0 < (rest.filter (fun r2 =>
          decide (r2.user_email = a.user_email))).length :=
        List.length_pos.mpr (List.ne_nil_of_mem hbf)
      simpa using this
    · have hrest : ¬ (rest.map (fun r => r.user_email)).Nodup :=
        fun hn => absurd (hnd hmem) (by simp [hn])
      obtain ⟨r, hr, hcount⟩ := ih hrest
      refine ⟨r, List.mem_cons_of_mem a hr, ?_⟩
      rw [List.filter_cons]
      by_cases ha : a.user_email = r.user_email
      · rw [if_pos (decide_eq_true ha)]
        exact lt_trans hcount (by simp)
      · rw [if_neg (by simpa using ha)]
        exact hcount

lemma nodup_users_of_not_incorrect (s : Store) (m : Nat) (p : String)
    (h : (m, p) ∉ get_invalid_voting_results_polls s) :
    ((validRowsFor s m p).map (fun r => r.user_email)).Nodup := by
  by_contra hnd
  apply h
  obtain ⟨r, hr, hcount⟩ := exists_dup_of_not_nodup _ hnd
  have hrv : r ∈ s.VOTING_RESULTS.filter (fun r2 => r2.is_valid) := by
    have h1 := List.mem_filter.mp hr
    have h2 := List.mem_filter.mp h1.1
    exact List.mem_filter.mpr ⟨h2.1, h1.2⟩
  have hpair : r.match_id = m ∧ r.poll_type = p := by
    have h1 := List.mem_filter.mp hr
    have h2 := List.mem_filter.mp h1.1
    exact of_decide_eq_true h2.2
  unfold get_invalid_voting_results_polls
  simp only
  rw [List.mem_dedup]
  apply List.mem_map.mpr
  refine ⟨r, ?_, by rw [hpair.1, hpair.2]⟩
  apply List.mem_filter.mpr
  refine ⟨hrv, decide_eq_true ?_⟩
  rw [incorrect_count_eq s r, hpair.1, hpair.2]
  exact hcount

lemma get_unprocessed_fst (s : Store) :
    (get_unprocessed_matches s).1 =
      (get_invalid_voting_results_polls s).foldl
        (fun st q => set_valid_to_false st q.1 q.2) s := rfl

lemma get_unprocessed_snd (s : Store) :
    (get_unprocessed_matches s).2 = s.RESULTS.filterMap (fun result =>
      if (result.match_id, result.poll_type) ∉ get_processed_matches s ∨
          (result.match_id, result.poll_type) ∈
            get_invalid_voting_results_polls s then
        some ⟨result.match_id, result.poll_type, result.result⟩
      else none) := rfl

lemma mem_unprocessed_of_row (s : Store) (r : ResultRow) (hr : r ∈ s.RESULTS)
    (hcond : (r.match_id, r.poll_type) ∉ get_processed_matches s ∨
      (r.match_id, r.poll_type) ∈ get_invalid_voting_results_polls s) :
    (⟨r.match_id, r.poll_type, r.result⟩ : Candidate) ∈
      (get_unprocessed_matches s).2 := by
  rw [get_unprocessed_snd]
  exact List.mem_filterMap.mpr ⟨r, hr, by rw [if_pos hcond]⟩

lemma mem_unprocessed_elim (s : Store) (c : Candidate)
    (hc : c ∈ (get_unprocessed_matches s).2) :
    ∃ r ∈ s.RESULTS, r.match_id = c.match_id ∧ r.poll_type = c.poll_type ∧
      r.result = c.correct_option ∧
      ((c.match_id, c.poll_type) ∉ get_processed_matches s ∨
        (c.match_id, c.poll_type) ∈ get_invalid_voting_results_polls s) := by
  rw [get_unprocessed_snd] at hc
  obtain ⟨r, hr, hf⟩ := List.mem_filterMap.mp hc
  by_cases hcond : (r.match_id, r.poll_type) ∉ get_processed_matches s ∨
      (r.match_id, r.poll_type) ∈ get_invalid_voting_results_polls s
  · rw [if_pos hcond] at hf
    injection hf with hf2
    rw [← hf2]
    exact ⟨r, hr, rfl, rfl, rfl, hcond⟩
  · rw [if_neg hcond] at hf
    exact absurd hf (by simp)

lemma unprocessed_pairs_sublist (s : Store) :
    ((get_unprocessed_matches s).2.map cpair).Sublist (s.RESULTS.map rpair) := by
  rw [get_unprocessed_snd]
  induction s.RESULTS with
  | nil => simp
  | cons r L ih =>
    rw [List.filterMap_cons, List.map_cons]
    by_cases hcond : (r.match_id, r.poll_type) ∉ get_processed_matches s ∨
        (r.match_id, r.poll_type) ∈ get_invalid_voting_results_polls s
    · rw [if_pos hcond, List.map_cons]
      exact List.Sublist.cons₂ _ ih
    · rw [if_neg hcond]
      exact List.Sublist.cons _ ih

lemma main_eq (s : Store) :
    main s = (get_unprocessed_matches s).2.foldlM process_result
      (get_unprocessed_matches s).1 := rfl

lemma main_post (s s₁ : Store)
    (hnd : (s.RESULTS.map rpair).Nodup)
    (h : main s = Except.ok s₁) :
    sameBase s s₁ ∧
    (∀ m p, ((validRowsFor s₁ m p).map (fun r => r.user_email)).Nodup) ∧
    (∀ r ∈ s.RESULTS, validRowsFor s₁ r.match_id r.poll_type = [] →
      settleOk s ⟨r.match_id, r.poll_type, r.result⟩ ∧
      entriesOf s ⟨r.match_id, r.poll_type, r.result⟩ = []) := by
  rw [main_eq] at h
  have hbaseA : sameBase s (get_unprocessed_matches s).1 := by
    rw [get_unprocessed_fst]
    exact invalidate_foldl_base _ s
  have hndc : ((get_unprocessed_matches s).2.map cpair).Nodup :=
    List.Nodup.sublist (unprocessed_pairs_sublist s) hnd
  obtain ⟨hbaseF, hframe, hproc⟩ :=
    foldlM_process _ (get_unprocessed_matches s).1 s₁ hndc h
  have hbase : sameBase s s₁ := sameBase_trans hbaseA hbaseF
  have hvalidA : ∀ m p, validRowsFor (get_unprocessed_matches s).1 m p =
      if (m, p) ∈ get_invalid_voting_results_polls s then []
      else validRowsFor s m p := by
    intro m p
    rw [get_unprocessed_fst]
    exact validRowsFor_invalidate _ s m p
  have hval_frame : ∀ m p, (m, p) ∉ (get_unprocessed_matches s).2.map cpair →
      validRowsFor s₁ m p = validRowsFor (get_unprocessed_matches s).1 m p := by
    intro m p hmp
    unfold validRowsFor
    rw [hframe m p hmp]
  have hval_cand : ∀ c ∈ (get_unprocessed_matches s).2,
      validRowsFor s₁ c.match_id c.poll_type = entriesOf s c := by
    intro c hc
    obtain ⟨hok, hrows⟩ := hproc c hc
    have hA : validRowsFor (get_unprocessed_matches s).1
        c.match_id c.poll_type = [] := by
      obtain ⟨r0, hr0, hm0, hp0, hres0, hcond⟩ := mem_unprocessed_elim s c hc
      rw [hvalidA]
      by_cases hin : (c.match_id, c.poll_type) ∈
          get_invalid_voting_results_polls s
      · rw [if_pos hin]
      · rw [if_neg hin]
        rcases hcond with hnp | hinx
        · by_contra hne
          exact hnp ((mem_processed_iff s _ _).mpr hne)
        · exact absurd hinx hin
    unfold validRowsFor at hA ⊢
    rw [hrows, List.filter_append, hA, List.nil_append,
      ← entriesOf_base hbaseA c]
    exact entriesOf_filter_valid s c
  refine ⟨hbase, ?_, ?_⟩
  · intro m p
    by_cases hmp : (m, p) ∈ (get_unprocessed_matches s).2.map cpair
    · obtain ⟨c, hc, hcp⟩ := List.mem_map.mp hmp
      have hm : c.match_id = m := congrArg Prod.fst hcp
      have hp : c.poll_type = p := congrArg Prod.snd hcp
      rw [← hm, ← hp, hval_cand c hc]
      exact entriesOf_users_nodup s c
    · rw [hval_frame m p hmp, hvalidA m p]
      by_cases hin : (m, p) ∈ get_invalid_voting_results_polls s
      · rw [if_pos hin]
        simp
      · rw [if_neg hin]
        exact nodup_users_of_not_incorrect s m p hin
  · intro r hr hempty
    by_cases hcond : (r.match_id, r.poll_type) ∉ get_processed_matches s ∨
        (r.match_id, r.poll_type) ∈ get_invalid_voting_results_polls s
    · have hc := mem_unprocessed_of_row s r hr hcond
      have hv := hval_cand _ hc
      simp only at hv
      rw [hempty] at hv
      obtain ⟨hok, _⟩ := hproc _ hc
      exact ⟨(settleOk_base hbaseA _).mpr hok, hv.symm⟩
    · exfalso
      push_neg at hcond
      have hmp : (r.match_id, r.poll_type) ∉
          (get_unprocessed_matches s).2.map cpair := by
        intro hx
        obtain ⟨c, hc, hcp⟩ := List.mem_map.mp hx
        obtain ⟨r0, hr0, hm0, hp0, hres0, hcond0⟩ := mem_unprocessed_elim s c hc
        rw [show (c.match_id, c.poll_type) = cpair c from rfl, hcp] at hcond0
        rcases hcond0 with h1 | h1
        · exact h1 hcond.1
        · exact hcond.2 h1
      rw [hval_frame _ _ hmp, hvalidA _ _, if_neg hcond.2] at hempty
      exact (mem_processed_iff s _ _).mp hcond.1 hempty

lemma foldlM_noop (cs : List Candidate) (t : Store)
    (h : ∀ c ∈ cs, settleOk t c ∧ entriesOf t c = []) :
    cs.foldlM process_result t = Except.ok t := by
  induction cs with
  | nil => rfl
  | cons c cs ih =>
    rw [List.foldlM_cons]
    have h1 := h c (List.mem_cons_self _ _)
    rw [process_result_of_settleOk h1.1, h1.2, List.append_nil, exceptOkBind]
    exact ih (fun c2 hc2 => h c2 (List.mem_cons_of_mem c hc2))

/-- Claim C3 (amended): when `RESULTS` holds at most one row per
(match, poll type) pair, a second reconciliation run right after a
successful one changes nothing: it succeeds and returns the same store, so
no new `VOTING_RESULTS` rows are inserted. -/
theorem reconciliation_idempotent (s s₁ : Store)
    (hnd : (s.RESULTS.map rpair).Nodup)
    (h : main s = Except.ok s₁) :
    main s₁ = Except.ok s₁ := by
  obtain ⟨hbase, hnodups, hempty⟩ := main_post s s₁ hnd h
  have hinc : get_invalid_voting_results_polls s₁ = [] :=
    incorrect_nil s₁ (fun m p => hnodups m p)
  have hfst : (get_unprocessed_matches s₁).1 = s₁ := by
    rw [get_unprocessed_fst, hinc]
    rfl
  rw [main_eq, hfst]
  apply foldlM_noop
  intro c hc
  obtain ⟨r, hr, hm, hp, hres, hcond⟩ := mem_unprocessed_elim s₁ c hc
  have hnp : (c.match_id, c.poll_type) ∉ get_processed_matches s₁ := by
    rcases hcond with h1 | h1
    · exact h1
    · rw [hinc] at h1
      exact absurd h1 (by simp)
  have hv1 : validRowsFor s₁ c.match_id c.poll_type = [] := by
    by_contra hne
    exact hnp ((mem_processed_iff s₁ _ _).mpr hne)
  have hrs : r ∈ s.RESULTS := by
    rw [hbase.2.2.2.2]
    exact hr
  have hkey := hempty r hrs (by rw [hm, hp]; exact hv1)
  have hc_eq : c = ⟨r.match_id, r.poll_type, r.result⟩ := by
    cases c
    simp only at hm hp hres
    simp [hm, hp, hres]
  rw [hc_eq]
  refine ⟨(settleOk_base hbase ⟨r.match_id, r.poll_type, r.result⟩).mp
    hkey.1, ?_⟩
  rw [← entriesOf_base hbase]
  exact hkey.2

/-- Claim C4 (amended): when a corrupted (match, poll type) pair has exactly
one `RESULTS` row (`RESULTS` pairwise-distinct), one successful
reconciliation run rewrites the pair's ledger to: every pre-existing row
with its validity flag set to false, followed by the freshly computed
settlement batch; the valid rows afterwards are exactly that fresh batch. -/
theorem corruption_self_healing (s s₁ : Store) (m : Nat) (p : String)
    (res : String)
    (hnd : (s.RESULTS.map rpair).Nodup)
    (hcorr : (m, p) ∈ get_invalid_voting_results_polls s)
    (hrow : (⟨m, p, res⟩ : ResultRow) ∈ s.RESULTS)
    (h : main s = Except.ok s₁) :
    rowsFor s₁ m p =
      (rowsFor s m p).map (fun r => { r with is_valid := false }) ++
        entriesOf s ⟨m, p, res⟩ ∧
    validRowsFor s₁ m p = entriesOf s ⟨m, p, res⟩ := by
  rw [main_eq] at h
  have hbaseA : sameBase s (get_unprocessed_matches s).1 := by
    rw [get_unprocessed_fst]
    exact invalidate_foldl_base _ s
  have hndc : ((get_unprocessed_matches s).2.map cpair).Nodup :=
    List.Nodup.sublist (unprocessed_pairs_sublist s) hnd
  obtain ⟨hbaseF, hframe, hproc⟩ :=
    foldlM_process _ (get_unprocessed_matches s).1 s₁ hndc h
  have hc : (⟨m, p, res⟩ : Candidate) ∈ (get_unprocessed_matches s).2 :=
    mem_unprocessed_of_row s ⟨m, p, res⟩ hrow (Or.inr hcorr)
  obtain ⟨hok, hrows⟩ := hproc _ hc
  simp only at hrows
  have hA : rowsFor (get_unprocessed_matches s).1 m p =
      (rowsFor s m p).map (fun r => { r with is_valid := false }) := by
    rw [get_unprocessed_fst, rowsFor_invalidate, if_pos hcorr]
  have hE : entriesOf (get_unprocessed_matches s).1 ⟨m, p, res⟩ =
      entriesOf s ⟨m, p, res⟩ := (entriesOf_base hbaseA _).symm
  constructor
  · rw [hrows, hA, hE]
  · unfold validRowsFor
    rw [hrows, List.filter_append, hA, hE]
    have hinval : ((rowsFor s m p).map (fun r =>
        { r with is_valid := false })).filter (fun r => r.is_valid) = [] := by
      rw [List.filter_eq_nil_iff]
      intro r hr
      obtain ⟨r0, _, rfl⟩ := List.mem_map.mp hr
      simp
    rw [hinval, List.nil_append]
    exact entriesOf_filter_valid s ⟨m, p, res⟩

/-- Claim C3 counterexample: with two identical `RESULTS` rows for one pair
the first run settles the pair twice, the duplicate valid rows are flagged
as corruption, and the second run invalidates and re-inserts: the ledger
grows from 2 to 4 rows. -/
theorem reconciliation_idempotent_counterexample :
    ¬ (∀ s s₁ s₂ : Store, main s = Except.ok s₁ → main s₁ = Except.ok s₂ →
        s₂.VOTING_RESULTS.length = s₁.VOTING_RESULTS.length) := by
  intro hall
  have h := hall
    ⟨[⟨"a@x", 1, none⟩], [⟨1, 25⟩], [], [],
      [⟨1, "winner", "A"⟩, ⟨1, "winner", "A"⟩], []⟩
    ⟨[⟨"a@x", 1, none⟩], [⟨1, 25⟩], [], [],
      [⟨1, "winner", "A"⟩, ⟨1, "winner", "A"⟩],
      [⟨1, "winner", "a@x", -25, true⟩, ⟨1, "winner", "a@x", -25, true⟩]⟩
    ⟨[⟨"a@x", 1, none⟩], [⟨1, 25⟩], [], [],
      [⟨1, "winner", "A"⟩, ⟨1, "winner", "A"⟩],
      [⟨1, "winner", "a@x", -25, false⟩, ⟨1, "winner", "a@x", -25, false⟩,
       ⟨1, "winner", "a@x", -25, true⟩, ⟨1, "winner", "a@x", -25, true⟩]⟩
    (by decide) (by decide)
  exact absurd h (by decide)

/-- Claim C3 witness: a well-formed store settles once (its lone eligible
user cast no vote and loses the stake); the second run is a no-op. -/
theorem reconciliation_idempotent_witness :
    ((⟨[⟨"a@x", 1, none⟩], [⟨1, 25⟩], [], [], [⟨1, "winner", "A"⟩], []⟩ :
      Store).RESULTS.map rpair).Nodup ∧
    main ⟨[⟨"a@x", 1, none⟩], [⟨1, 25⟩], [], [], [⟨1, "winner", "A"⟩], []⟩ =
      Except.ok ⟨[⟨"a@x", 1, none⟩], [⟨1, 25⟩], [], [],
        [⟨1, "winner", "A"⟩], [⟨1, "winner", "a@x", -25, true⟩]⟩ ∧
    main ⟨[⟨"a@x", 1, none⟩], [⟨1, 25⟩], [], [],
        [⟨1, "winner", "A"⟩], [⟨1, "winner", "a@x", -25, true⟩]⟩ =
      Except.ok ⟨[⟨"a@x", 1, none⟩], [⟨1, 25⟩], [], [],
        [⟨1, "winner", "A"⟩], [⟨1, "winner", "a@x", -25, true⟩]⟩ :=
  ⟨by decide, by decide,
    reconciliation_idempotent
      ⟨[⟨"a@x", 1, none⟩], [⟨1, 25⟩], [], [], [⟨1, "winner", "A"⟩], []⟩
      ⟨[⟨"a@x", 1, none⟩], [⟨1, 25⟩], [], [],
        [⟨1, "winner", "A"⟩], [⟨1, "winner", "a@x", -25, true⟩]⟩
      (by decide) (by decide)⟩

/-- Claim C4 counterexample: a corrupted pair with no `RESULTS` row is
invalidated but never re-settled, so no valid row-set exists after the run. -/
theorem corruption_self_healing_counterexample :
    ¬ (∀ (s s₁ : Store) (m : Nat) (p : String),
        (m, p) ∈ get_invalid_voting_results_polls s →
        main s = Except.ok s₁ → validRowsFor s₁ m p ≠ []) := by
  intro hall
  exact hall
    ⟨[], [], [], [], [],
      [⟨1, "w", "a@x", 10, true⟩, ⟨1, "w", "a@x", 20, true⟩]⟩
    ⟨[], [], [], [], [],
      [⟨1, "w", "a@x", 10, false⟩, ⟨1, "w", "a@x", 20, false⟩]⟩
    1 "w" (by decide) (by decide) (by decide)

/-- Claim C4 witness: a corrupted pair with one `RESULTS` row is invalidated
and freshly re-settled by one run. -/
theorem corruption_self_healing_witness :
    (((⟨[⟨"a@x", 1, none⟩], [⟨1, 25⟩], [], [], [⟨1, "w", "A"⟩],
        [⟨1, "w", "a@x", 10, true⟩, ⟨1, "w", "a@x", 20, true⟩]⟩ :
      Store).RESULTS.map rpair).Nodup ∧
      (1, "w") ∈ get_invalid_voting_results_polls
        ⟨[⟨"a@x", 1, none⟩], [⟨1, 25⟩], [], [], [⟨1, "w", "A"⟩],
          [⟨1, "w", "a@x", 10, true⟩, ⟨1, "w", "a@x", 20, true⟩]⟩) ∧
    (rowsFor ⟨[⟨"a@x", 1, none⟩], [⟨1, 25⟩], [], [], [⟨1, "w", "A"⟩],
        [⟨1, "w", "a@x", 10, false⟩, ⟨1, "w", "a@x", 20, false⟩,
         ⟨1, "w", "a@x", -25, true⟩]⟩ 1 "w" =
      (rowsFor ⟨[⟨"a@x", 1, none⟩], [⟨1, 25⟩], [], [], [⟨1, "w", "A"⟩],
        [⟨1, "w", "a@x", 10, true⟩, ⟨1, "w", "a@x", 20, true⟩]⟩ 1 "w").map
        (fun r => { r with is_valid := false }) ++
        entriesOf ⟨[⟨"a@x", 1, none⟩], [⟨1, 25⟩], [], [], [⟨1, "w", "A"⟩],
          [⟨1, "w", "a@x", 10, true⟩, ⟨1, "w", "a@x", 20, true⟩]⟩
          ⟨1, "w", "A"⟩ ∧
     validRowsFor ⟨[⟨"a@x", 1, none⟩], [⟨1, 25⟩], [], [], [⟨1, "w", "A"⟩],
        [⟨1, "w", "a@x", 10, false⟩, ⟨1, "w", "a@x", 20, false⟩,
         ⟨1, "w", "a@x", -25, true⟩]⟩ 1 "w" =
      entriesOf ⟨[⟨"a@x", 1, none⟩], [⟨1, 25⟩], [], [], [⟨1, "w", "A"⟩],
          [⟨1, "w", "a@x", 10, true⟩, ⟨1, "w", "a@x", 20, true⟩]⟩
          ⟨1, "w", "A"⟩) :=
  ⟨⟨by decide, by decide⟩,
    corruption_self_healing
      ⟨[⟨"a@x", 1, none⟩], [⟨1, 25⟩], [], [], [⟨1, "w", "A"⟩],
        [⟨1, "w", "a@x", 10, true⟩, ⟨1, "w", "a@x", 20, true⟩]⟩
      ⟨[⟨"a@x", 1, none⟩], [⟨1, 25⟩], [], [], [⟨1, "w", "A"⟩],
        [⟨1, "w", "a@x", 10, false⟩, ⟨1, "w", "a@x", 20, false⟩,
         ⟨1, "w", "a@x", -25, true⟩]⟩
      1 "w" "A" (by decide) (by decide) (by decide) (by decide)⟩

end VotingBot
